import Mathlib

/-!
Verification of the polling coordinator of the Video-Translation-Simulator
repository (`pkg/client/client.go`) against its design document.

Modelling conventions:
* Go `time.Duration` values are nanoseconds, embedded as `Int` (Go `int64`).
* Go `time.Time` instants are embedded as `Int` nanosecond timestamps, with the
  zero value `time.Time{}` embedded as `0`.
* Go integer division truncates toward zero, hence `Int.tdiv`.
* The random source is externalised: the value produced by `rand.Int63n` is an
  explicit `draw` argument, and `rand.Int63n`'s panic on a non-positive bound is
  embedded as `none`.
* The network is externalised: the outcome of the upstream HTTP exchange is an
  explicit argument.
-/

/-- Go `time.Millisecond` in nanoseconds. -/
def millisecond : Int := 1000000

/-- Go `time.Second` in nanoseconds. -/
def second : Int := 1000000000

/-- The `Client` struct of `pkg/client/client.go` (lines 49-64).  The `Logger`
and `httpClient` fields carry no coordinator state and are omitted; the mutex is
represented by the atomicity of `Client.handlePoll` below. -/
structure Client where
  BaseURL : String
  status : String
  attempt : Int
  delay : Int
  maxDelay : Int
  maxRetries : Int
  lastRequest : Int
  nextRequest : Int
  initialDelay : Int
  pending : Bool
  timeout : Int
deriving Repr, DecidableEq

/-- `NewClient` (client.go lines 67-83): the constructor takes only the base URL
(and a logger, which carries no state); every numeric parameter is the fixed
default. -/
def NewClient (baseURL : String) : Client :=
  { BaseURL := baseURL
    status := ""
    attempt := 0
    delay := 0
    maxDelay := 10 * second
    maxRetries := 20
    lastRequest := 0
    nextRequest := 0
    initialDelay := 500 * millisecond
    pending := false
    timeout := 5 * second }

/-- Model of Go `rand.Int63n n`: it panics (`none`) when `n ≤ 0`; otherwise it
returns a uniformly random value in `[0, n)`.  The value actually produced by the
random source is the explicit argument `draw`; a draw outside `[0, n)` is not a
possible execution and also maps to `none`. -/
def randInt63n (n draw : Int) : Option Int :=
  if n ≤ 0 then none
  else if 0 ≤ draw ∧ draw < n then some draw else none

/-- The doubled-and-capped base delay computed by the first half of
`Client.nextDelay` (client.go lines 153-160): substitute `initialDelay` for a
zero current delay, otherwise double, then cap at `maxDelay`. -/
def Client.cappedBase (c : Client) (currentDelay : Int) : Int :=
  let d := if currentDelay = 0 then c.initialDelay else currentDelay * 2
  if d > c.maxDelay then c.maxDelay else d

/-- `Client.nextDelay` (client.go lines 152-166): jitter drawn from
`[0, base/2)` is added to `base/2`.  `none` is the panic of `rand.Int63n` on a
non-positive bound. -/
def Client.nextDelay (c : Client) (currentDelay draw : Int) : Option Int :=
  let base := c.cappedBase currentDelay
  (randInt63n (Int.tdiv base 2) draw).map (fun jitter => Int.tdiv base 2 + jitter)

/-- One upstream HTTP exchange as observed by `Client.RetrieveStatus`:
`statusCode` is the HTTP status code and `bodyResult` is `some r` when the body
decodes as JSON `\x7b"result": r\x7d`, `none` when it is undecodable. -/
structure UpstreamExchange where
  statusCode : Nat
  bodyResult : Option String
deriving Repr, DecidableEq

/-- `Client.RetrieveStatus` (client.go lines 169-197).  The argument is `none`
when `httpClient.Do` fails (network error or timeout); any non-200 code or
undecodable body is an error, otherwise the decoded `result` string is returned
unchanged. -/
def RetrieveStatus (exchange : Option UpstreamExchange) : Except Unit String :=
  match exchange with
  | none => .error ()
  | some e =>
    if e.statusCode ≠ 200 then .error ()
    else
      match e.bodyResult with
      | none => .error ()
      | some s => .ok s

/-- What `HandleStatusRequest` writes back to its caller: `ok` is
`respondWithStatus` (HTTP 200 with a JSON body) and `err` is `respondWithError`
(HTTP 500 with a plain-text message). -/
inductive HttpReply where
  | ok (status : String)
  | err (message : String)
deriving Repr, DecidableEq

/-- Result of one `HandleStatusRequest` call: the updated coordinator state, the
reply written to the caller, and whether an upstream fetch was attempted. -/
structure PollResult where
  state : Client
  reply : HttpReply
  fetched : Bool
deriving Repr, DecidableEq

/-- The sequence-start block of `HandleStatusRequest` (client.go lines 93-101),
executed when no polling sequence is active. -/
def Client.startSequence (c : Client) (now : Int) : Client :=
  { c with pending := true, status := "pending", attempt := 0,
           delay := c.initialDelay, lastRequest := 0, nextRequest := now }

/-- `Client.HandleStatusRequest` (client.go lines 86-139).  `fetch` is the
outcome of `RetrieveStatus` and `draw` the jitter draw consumed when the
upstream answers `pending`.  The handler reads `time.Now()` several times in one
call; all reads are embedded as the single instant `now` (they differ only by
the handler's own running time, and the branch on line 104 compares the second
read against a `nextRequest` set to the first, so collapsing them preserves the
branch taken).  `none` is the `rand.Int63n` panic propagating out of
`nextDelay`. -/
def Client.handlePoll (c0 : Client) (now : Int) (fetch : Except Unit String)
    (draw : Int) : Option PollResult :=
  let c := if c0.pending then c0 else c0.startSequence now
  if now < c.nextRequest then
    some ⟨c, .ok c.status, false⟩
  else
    let c := { c with attempt := c.attempt + 1 }
    match fetch with
    | .error _ =>
      if c.attempt ≥ c.maxRetries then
        some ⟨{ c with pending := false }, .err "Max retries reached", true⟩
      else
        some ⟨{ c with lastRequest := now }, .ok c.status, true⟩
    | .ok st =>
      let c := { c with status := st }
      if st = "pending" then
        (c.nextDelay c.delay draw).map (fun d =>
          ⟨{ c with delay := d, nextRequest := now + d, lastRequest := now },
            .ok st, true⟩)
      else
        some ⟨{ c with pending := false, lastRequest := now }, .ok st, true⟩

/-- One eligible poll arriving exactly at `nextRequest`, with the upstream
answering `pending`: the scenario of the backoff-growth property. -/
def Client.pendingStep (c : Client) (draw : Int) : Option Client :=
  (c.handlePoll c.nextRequest (.ok "pending") draw).map (·.state)

/-- Iterated `pendingStep`, one jitter draw per eligible poll. -/
def Client.pendingRun (c : Client) : List Int → Option Client
  | [] => some c
  | draw :: draws => (c.pendingStep draw).bind (fun c2 => c2.pendingRun draws)

/-- The trace of `delay` values observed after each eligible `pending` poll. -/
def Client.delaysRun (c : Client) : List Int → Option (List Int)
  | [] => some []
  | draw :: draws =>
    (c.pendingStep draw).bind (fun c2 =>
      (c2.delaysRun draws).map (fun ds => c2.delay :: ds))

/-- Twenty concrete jitter draws, each within its step's admissible interval. -/
def cexDraws : List Int :=
  [499999999, 999999998, 1999999996, 3999999992, 0, 0, 0, 0, 0, 0,
   0, 0, 0, 0, 0, 0, 0, 0, 0, 0]

/-- The delay trace produced by `cexDraws` from the default configuration. -/
def cexDelays : List Int :=
  [999999999, 1999999997, 3999999993, 7999999985, 5000000000, 5000000000,
   5000000000, 5000000000, 5000000000, 5000000000, 5000000000, 5000000000,
   5000000000, 5000000000, 5000000000, 5000000000, 5000000000, 5000000000,
   5000000000, 5000000000]

/-- Halving by truncating division is non-positive exactly below 2. -/
theorem tdiv_two_nonpos_iff (a : Int) : Int.tdiv a 2 ≤ 0 ↔ a < 2 := by
  constructor
  · intro h
    by_contra hc
    push_neg at hc
    rw [Int.tdiv_eq_ediv (by omega) (by decide)] at h
    omega
  · intro h
    rcases le_or_lt 0 a with ha | ha
    · rw [Int.tdiv_eq_ediv ha (by decide)]
      omega
    · have h1 : a = -(-a) := by ring
      rw [h1, Int.neg_tdiv]
      have h2 := Int.tdiv_nonneg (a := -a) (b := 2) (by omega) (by decide)
      omega

/-- Doubling a truncated half never overshoots a non-negative value. -/
theorem two_mul_tdiv_two_le (a : Int) (h : 0 ≤ a) : 2 * Int.tdiv a 2 ≤ a := by
  rw [Int.tdiv_eq_ediv h (by decide)]
  omega

/-- The capped base never exceeds `maxDelay`. -/
theorem Client.cappedBase_le_maxDelay (c : Client) (cur : Int) :
    c.cappedBase cur ≤ c.maxDelay := by
  unfold Client.cappedBase
  dsimp only
  split <;> omega

/-- Characterisation of the capped base when `initialDelay` does not exceed `maxDelay`. -/
theorem Client.cappedBase_eq (c : Client) (cur : Int) (hle : c.initialDelay ≤ c.maxDelay) :
    c.cappedBase cur = if cur = 0 then c.initialDelay else min (cur * 2) c.maxDelay := by
  unfold Client.cappedBase
  dsimp only
  rcases eq_or_ne cur 0 with h | h
  · rw [if_pos h, if_pos h]
    split <;> omega
  · rw [if_neg h, if_neg h]
    split <;> omega

/-- Any value actually returned by `nextDelay` lies in `[base/2, base)` and hence in `(0, maxDelay)`. -/
theorem Client.nextDelay_bounds (c : Client) (cur draw d : Int)
    (h : c.nextDelay cur draw = some d) :
    2 ≤ c.cappedBase cur ∧ Int.tdiv (c.cappedBase cur) 2 ≤ d ∧
      d < c.cappedBase cur ∧ 0 < d ∧ d < c.maxDelay := by
  unfold Client.nextDelay at h
  rcases Option.map_eq_some'.mp h with ⟨j, hj, hfd⟩
  unfold randInt63n at hj
  by_cases h0 : Int.tdiv (c.cappedBase cur) 2 ≤ 0
  · rw [if_pos h0] at hj
    cases hj
  · rw [if_neg h0] at hj
    by_cases h1 : 0 ≤ draw ∧ draw < Int.tdiv (c.cappedBase cur) 2
    · rw [if_pos h1] at hj
      obtain rfl : draw = j := by injection hj
      have hb2 : 2 ≤ c.cappedBase cur := by
        have := tdiv_two_nonpos_iff (c.cappedBase cur)
        omega
      have hmul := two_mul_tdiv_two_le (c.cappedBase cur) (by omega)
      have hmax := c.cappedBase_le_maxDelay cur
      refine ⟨hb2, by omega, by omega, by omega, by omega⟩
    · rw [if_neg h1] at hj
      cases hj

/-- Unfolding of an eligible `pending` poll on an active sequence. -/
theorem Client.pendingStep_pending_eq (c : Client) (draw : Int) (hp : c.pending = true) :
    c.pendingStep draw = (c.nextDelay c.delay draw).map (fun d =>
      { c with attempt := c.attempt + 1, status := "pending", delay := d,
               nextRequest := c.nextRequest + d, lastRequest := c.nextRequest }) := by
  simp [Client.pendingStep, Client.handlePoll, hp, Client.nextDelay, Client.cappedBase,
    Option.map_map]
  rfl

/-- Unfolding of an eligible `pending` poll that starts a new sequence. -/
theorem Client.pendingStep_start_eq (c : Client) (draw : Int) (hp : c.pending = false) :
    c.pendingStep draw = (c.nextDelay c.initialDelay draw).map (fun d =>
      { c with pending := true, status := "pending", attempt := 1, delay := d,
               nextRequest := c.nextRequest + d, lastRequest := c.nextRequest }) := by
  simp [Client.pendingStep, Client.handlePoll, hp, Client.startSequence, Client.nextDelay,
    Client.cappedBase, Option.map_map]
  rfl

/-- State facts preserved or established by one eligible `pending` poll. -/
theorem Client.pendingStep_facts (c c2 : Client) (draw : Int)
    (h : c.pendingStep draw = some c2) :
    c2.pending = true ∧ c2.maxDelay = c.maxDelay ∧ c2.initialDelay = c.initialDelay ∧
    0 < c2.delay ∧ c2.delay < c.maxDelay ∧
    (c.pending = true → Int.tdiv (c.cappedBase c.delay) 2 ≤ c2.delay) := by
  cases hp : c.pending
  · rw [Client.pendingStep_start_eq c draw hp] at h
    rcases Option.map_eq_some'.mp h with ⟨d, hd, hc2⟩
    have hb := c.nextDelay_bounds _ _ _ hd
    subst hc2
    exact ⟨rfl, rfl, rfl, hb.2.2.2.1, hb.2.2.2.2, fun hpt => by simp at hpt⟩
  · rw [Client.pendingStep_pending_eq c draw hp] at h
    rcases Option.map_eq_some'.mp h with ⟨d, hd, hc2⟩
    have hb := c.nextDelay_bounds _ _ _ hd
    subst hc2
    exact ⟨hp, rfl, rfl, hb.2.2.2.1, hb.2.2.2.2, fun _ => hb.2.1⟩

/-- While the doubled delay stays within `maxDelay`, an eligible `pending` poll never decreases the delay. -/
theorem Client.pendingStep_mono (c c2 : Client) (draw : Int)
    (h : c.pendingStep draw = some c2) (hp : c.pending = true)
    (hpos : 0 < c.delay) (hcap : c.delay * 2 ≤ c.maxDelay) :
    c.delay ≤ c2.delay := by
  have hf := Client.pendingStep_facts c c2 draw h
  have ht := hf.2.2.2.2.2 hp
  have hcb : c.cappedBase c.delay = c.delay * 2 := by
    unfold Client.cappedBase
    dsimp only
    rw [if_neg (show ¬ c.delay = 0 by omega), if_neg (by omega)]
  rw [hcb] at ht
  have htd : Int.tdiv (c.delay * 2) 2 = c.delay := by
    rw [Int.tdiv_eq_ediv (by omega) (by decide)]
    omega
  omega

/-- Every delay observed along an always-`pending` run is positive and strictly below `maxDelay`, and successive delays are non-decreasing while the doubled delay stays within `maxDelay`. -/
theorem Client.delaysRun_facts (draws : List Int) :
    ∀ (c : Client) (L : List Int), c.delaysRun draws = some L →
      (∀ d ∈ L, 0 < d ∧ d < c.maxDelay) ∧
      List.Chain' (fun a b => a * 2 ≤ c.maxDelay → a ≤ b) L := by
  induction draws with
  | nil =>
    intro c L h
    simp [Client.delaysRun] at h
    subst h
    simp
  | cons draw draws ih =>
    intro c L h
    simp only [Client.delaysRun] at h
    rcases Option.bind_eq_some.mp h with ⟨c2, hstep, hrest⟩
    rcases Option.map_eq_some'.mp hrest with ⟨ds, hds, hL⟩
    subst hL
    have hf := Client.pendingStep_facts c c2 draw hstep
    have hmax2 : c2.maxDelay = c.maxDelay := hf.2.1
    have ihds := ih c2 ds hds
    constructor
    · intro d hd
      rcases List.mem_cons.mp hd with rfl | hd2
      · exact ⟨hf.2.2.2.1, hf.2.2.2.2.1⟩
      · have hb := ihds.1 d hd2
        exact ⟨hb.1, by omega⟩
    · rcases ds with _ | ⟨d1, ds'⟩
      · simp
      · have hchain : List.Chain' (fun a b => a * 2 ≤ c.maxDelay → a ≤ b) (d1 :: ds') := by
          rw [← hmax2]
          exact ihds.2
        refine List.chain'_cons.mpr ⟨?_, hchain⟩
        intro hcap
        cases draws with
        | nil =>
          simp [Client.delaysRun] at hds
        | cons draw2 draws2 =>
          simp only [Client.delaysRun] at hds
          rcases Option.bind_eq_some.mp hds with ⟨c3, hstep2, hrest2⟩
          rcases Option.map_eq_some'.mp hrest2 with ⟨ds2, hds2, hL2⟩
          have hd1 : d1 = c3.delay := by
            injection hL2.symm
          rw [hd1]
          exact Client.pendingStep_mono c2 c3 draw2 hstep2 hf.1 hf.2.2.2.1 (by omega)

/-- C1 counterexample: 21 consecutive eligible polls whose fetches all succeed with `pending` drive `attempt` to 21, strictly above `maxRetries = 20`, refuting the invariant that `attempt` never exceeds `maxRetries`. -/
theorem C1_counterexample :
    ((NewClient "http://localhost:8080").pendingRun (List.replicate 21 0)).map Client.attempt
      = some 21 ∧
    (NewClient "http://localhost:8080").maxRetries = 20 := by
  constructor
  · decide
  · decide

/-- C1 amended: `attempt` counts every fetch of the sequence (successful `pending` fetches included) and can exceed `maxRetries`; when a fetch fails with the incremented attempt at least `maxRetries`, the coordinator surfaces exactly one error reply (HTTP 500) to the caller of that poll and sets `pending` to false, leaving the stored `status` field unchanged — no `max-retries-exceeded` status value is ever stored. -/
theorem C1_amended_retry_ceiling (c : Client) (now draw : Int)
    (hp : c.pending = true) (he : ¬ now < c.nextRequest)
    (hge : c.maxRetries ≤ c.attempt + 1) :
    c.handlePoll now (.error ()) draw =
      some ⟨{ c with attempt := c.attempt + 1, pending := false }, .err "Max retries reached", true⟩ ∧
    ({ c with attempt := c.attempt + 1, pending := false } : Client).pending = false ∧
    ({ c with attempt := c.attempt + 1, pending := false } : Client).status = c.status := by
  refine ⟨?_, rfl, rfl⟩
  simp [Client.handlePoll, hp, he, show c.attempt + 1 ≥ c.maxRetries from hge]

/-- Witness for C1 amended: a sequence at attempt 19 whose next fetch fails. -/
theorem C1_witness :
    ({ (NewClient "u").startSequence 0 with attempt := 19 } : Client).handlePoll 0 (.error ()) 0 =
      some ⟨{ (NewClient "u").startSequence 0 with attempt := 20, pending := false }, .err "Max retries reached", true⟩ := by
  have h := C1_amended_retry_ceiling ({ (NewClient "u").startSequence 0 with attempt := 19 } : Client) 0 0 rfl (by decide) (by decide)
  simpa using h.1

/-- C2: for every current delay in `[0, maxDelay]`, under a configuration whose `initialDelay` is at least 2 ns and at most `maxDelay`, `nextDelay current` succeeds and returns a value in `[base/2, base)` (integer halving), where `base` equals `initialDelay` when `current = 0` and `min (current * 2) maxDelay` otherwise; in particular the result is always strictly less than `maxDelay`. -/
theorem C2_nextDelay_range (c : Client) (cur draw : Int)
    (hinit : 2 ≤ c.initialDelay) (hle : c.initialDelay ≤ c.maxDelay)
    (hcur0 : 0 ≤ cur) (hcurM : cur ≤ c.maxDelay)
    (hd0 : 0 ≤ draw) (hdlt : draw < Int.tdiv (c.cappedBase cur) 2) :
    ∃ d, c.nextDelay cur draw = some d ∧
      Int.tdiv (c.cappedBase cur) 2 ≤ d ∧ d < c.cappedBase cur ∧ d < c.maxDelay ∧
      c.cappedBase cur = if cur = 0 then c.initialDelay else min (cur * 2) c.maxDelay := by
  have hchar := c.cappedBase_eq cur hle
  have hb2 : 2 ≤ c.cappedBase cur := by
    rw [hchar]
    split <;> omega
  have hpos : ¬ Int.tdiv (c.cappedBase cur) 2 ≤ 0 := by
    rw [tdiv_two_nonpos_iff]
    omega
  refine ⟨Int.tdiv (c.cappedBase cur) 2 + draw, ?_, by omega, ?_, ?_, hchar⟩
  · unfold Client.nextDelay randInt63n
    dsimp only
    rw [if_neg hpos, if_pos ⟨hd0, hdlt⟩]
    rfl
  · have hmul := two_mul_tdiv_two_le (c.cappedBase cur) (by omega)
    omega
  · have hmul := two_mul_tdiv_two_le (c.cappedBase cur) (by omega)
    have hmax := c.cappedBase_le_maxDelay cur
    omega

/-- Witness for C2 at the default configuration with `current = 0` and jitter draw `0`. -/
theorem C2_witness :
    0 ≤ (0:Int) ∧
    ∃ d, (NewClient "http://localhost:8080").nextDelay 0 0 = some d ∧
      Int.tdiv ((NewClient "http://localhost:8080").cappedBase 0) 2 ≤ d ∧
      d < (NewClient "http://localhost:8080").cappedBase 0 ∧
      d < (NewClient "http://localhost:8080").maxDelay ∧
      (NewClient "http://localhost:8080").cappedBase 0 =
        if (0:Int) = 0 then (NewClient "http://localhost:8080").initialDelay
        else min (0 * 2) (NewClient "http://localhost:8080").maxDelay :=
  ⟨by decide,
    C2_nextDelay_range (NewClient "http://localhost:8080") 0 0 (by decide) (by decide)
      (by decide) (by decide) (by decide) (by decide)⟩

/-- C3: when a fetch fails (transport error, timeout, non-200 or undecodable body — all of which `RetrieveStatus` maps to an error) and the incremented attempt is still below `maxRetries`, the coordinator leaves `status`, `nextRequest` and `delay` unchanged (only `attempt` and the diagnostic `lastRequest` advance) and the caller receives the cached status as a normal 200 reply. -/
theorem C3_transport_failure_soft (c : Client) (now draw : Int)
    (hp : c.pending = true) (he : ¬ now < c.nextRequest)
    (hlt : c.attempt + 1 < c.maxRetries) :
    c.handlePoll now (.error ()) draw =
      some ⟨{ c with attempt := c.attempt + 1, lastRequest := now }, .ok c.status, true⟩ ∧
    ({ c with attempt := c.attempt + 1, lastRequest := now } : Client).status = c.status ∧
    ({ c with attempt := c.attempt + 1, lastRequest := now } : Client).nextRequest = c.nextRequest ∧
    ({ c with attempt := c.attempt + 1, lastRequest := now } : Client).delay = c.delay ∧
    ({ c with attempt := c.attempt + 1, lastRequest := now } : Client).pending = true ∧
    RetrieveStatus none = .error () ∧
    (∀ e : UpstreamExchange, e.statusCode ≠ 200 → RetrieveStatus (some e) = .error ()) ∧
    (∀ n : Nat, RetrieveStatus (some ⟨n, none⟩) = .error ()) := by
  refine ⟨?_, rfl, rfl, rfl, hp, rfl, ?_, ?_⟩
  · simp [Client.handlePoll, hp, he, show ¬ c.attempt + 1 ≥ c.maxRetries by omega]
  · intro e hne
    simp [RetrieveStatus, hne]
  · intro n
    by_cases hn : n = 200
    · subst hn
      rfl
    · simp [RetrieveStatus, hn]

/-- Witness for C3: the first attempt of a fresh sequence failing, far below the retry ceiling. -/
theorem C3_witness :
    ((NewClient "u").startSequence 0).handlePoll 0 (.error ()) 0 =
      some ⟨{ (NewClient "u").startSequence 0 with attempt := 1, lastRequest := 0 }, .ok "pending", true⟩ :=
  (C3_transport_failure_soft ((NewClient "u").startSequence 0) 0 0 rfl (by decide) (by decide)).1

/-- C4: a poll arriving while a sequence is active and `now < nextRequest` returns the cached status as HTTP 200 without fetching and leaves every field of the state unchanged; all polls in this window return the identical status. -/
theorem C4_cache_hit (c : Client) (now : Int) (fetch : Except Unit String) (draw : Int)
    (hp : c.pending = true) (hlt : now < c.nextRequest) :
    c.handlePoll now fetch draw = some ⟨c, .ok c.status, false⟩ ∧
    ∀ (now2 : Int) (fetch2 : Except Unit String) (draw2 : Int), now2 < c.nextRequest →
      c.handlePoll now2 fetch2 draw2 = some ⟨c, .ok c.status, false⟩ := by
  constructor
  · simp [Client.handlePoll, hp, hlt]
  · intro now2 fetch2 draw2 h2
    simp [Client.handlePoll, hp, h2]

/-- Witness for C4: a freshly started sequence with `nextRequest = 5` polled at `now = 3`. -/
theorem C4_witness :
    ((NewClient "u").startSequence 5).handlePoll 3 (.error ()) 0 =
      some ⟨(NewClient "u").startSequence 5, .ok "pending", false⟩ :=
  (C4_cache_hit ((NewClient "u").startSequence 5) 3 (.error ()) 0 rfl (by decide)).1

/-- C5: a fetch that succeeds with a terminal (non-`pending`) value is adopted as `status` and ends the sequence (`pending := false`); a poll arriving with no active sequence behaves exactly as one started from `startSequence`, which resets `attempt` to 0, `status` to `pending`, `delay` to `initialDelay` and `nextRequest` to `now`. -/
theorem C5_terminal_then_restart (c : Client) (now draw : Int) (st : String)
    (hp : c.pending = true) (he : ¬ now < c.nextRequest) (hst : st ≠ "pending") :
    c.handlePoll now (.ok st) draw =
      some ⟨{ c with attempt := c.attempt + 1, status := st, pending := false, lastRequest := now }, .ok st, true⟩ ∧
    (∀ (c3 : Client) (now3 draw3 : Int) (fetch3 : Except Unit String),
      c3.pending = false →
      c3.handlePoll now3 fetch3 draw3 = (c3.startSequence now3).handlePoll now3 fetch3 draw3) ∧
    (∀ (c3 : Client) (now3 : Int),
      (c3.startSequence now3).attempt = 0 ∧ (c3.startSequence now3).status = "pending" ∧
      (c3.startSequence now3).delay = c3.initialDelay ∧
      (c3.startSequence now3).nextRequest = now3 ∧ (c3.startSequence now3).pending = true) := by
  refine ⟨?_, ?_, fun c3 now3 => ⟨rfl, rfl, rfl, rfl, rfl⟩⟩
  · simp [Client.handlePoll, hp, he, hst]
  · intro c3 now3 draw3 fetch3 h3
    simp [Client.handlePoll, h3, Client.startSequence]

/-- Witness for C5: a fresh sequence receiving a terminal `completed` on its first fetch. -/
theorem C5_witness :
    ((NewClient "u").startSequence 0).handlePoll 0 (.ok "completed") 0 =
      some ⟨{ (NewClient "u").startSequence 0 with attempt := 1, status := "completed", pending := false, lastRequest := 0 }, .ok "completed", true⟩ :=
  (C5_terminal_then_restart ((NewClient "u").startSequence 0) 0 0 "completed" rfl (by decide) (by decide)).1

/-- C6 counterexample: a feasible sequence of 20 jitter draws under the default configuration for which the 20 successive `currentDelay` values are not monotonically non-decreasing (the fifth delay, 5 s, is below the fourth, about 8 s). -/
theorem C6_counterexample :
    cexDraws.length = 20 ∧
    (NewClient "http://localhost:8080").delaysRun cexDraws = some cexDelays ∧
    ¬ List.Chain' (fun a b : Int => a ≤ b) cexDelays := by
  refine ⟨by decide, by decide, ?_⟩
  norm_num [cexDelays, List.chain'_cons]

/-- C6 amended: with `initialDelay = 500` ms and `maxDelay = 10` s, every sequence of eligible always-`pending` polls produces `currentDelay` values that are positive and strictly below 10 s, and that are non-decreasing between any two successive polls as long as the doubled delay has not yet reached the 10 s cap; once it has, jitter may cause a decrease, so the full sequence need not be monotone. -/
theorem C6_amended_bounded_delays (url : String) (draws L : List Int)
    (h : (NewClient url).delaysRun draws = some L) :
    (∀ d ∈ L, 0 < d ∧ d < 10 * second) ∧
    List.Chain' (fun a b => a * 2 ≤ 10 * second → a ≤ b) L :=
  Client.delaysRun_facts draws (NewClient url) L h

/-- Witness for C6 amended at the concrete 20-draw run of the counterexample. -/
theorem C6_witness :
    (∀ d ∈ cexDelays, 0 < d ∧ d < 10 * second) ∧
    List.Chain' (fun a b => a * 2 ≤ 10 * second → a ≤ b) cexDelays :=
  C6_amended_bounded_delays "http://localhost:8080" cexDraws cexDelays (by decide)

/-- C7 counterexample: `NewClient` accepts only a base URL (and a logger); no construction argument can override `initialDelay`, `maxDelay`, `maxRetries` or `timeout`, which always take their fixed values. -/
theorem C7_counterexample :
    ¬ ∃ url : String,
        (NewClient url).initialDelay ≠ 500 * millisecond ∨
        (NewClient url).maxDelay ≠ 10 * second ∨
        (NewClient url).maxRetries ≠ 20 ∨
        (NewClient url).timeout ≠ 5 * second := by
  rintro ⟨url, h | h | h | h⟩ <;> exact h rfl

/-- C7 amended: the coordinator built by `NewClient` has `initialDelay = 500` ms, `maxDelay = 10` s, `maxRetries = 20` and outbound timeout 5 s, but none of the four is overridable at construction. -/
theorem C7_amended_fixed_defaults (url : String) :
    (NewClient url).initialDelay = 500 * millisecond ∧
    (NewClient url).maxDelay = 10 * second ∧
    (NewClient url).maxRetries = 20 ∧
    (NewClient url).timeout = 5 * second :=
  ⟨rfl, rfl, rfl, rfl⟩

/-- C9: `nextDelay` passes half the capped base to `rand.Int63n`, which panics on a non-positive bound; hence `nextDelay` returns a value whenever the capped base is at least 2 ns, and panics (returns `none`) for every draw whenever the capped base is below 2 ns. -/
theorem C9_nextDelay_panic_boundary (c : Client) (cur : Int) :
    (2 ≤ c.cappedBase cur →
      c.nextDelay cur 0 = some (Int.tdiv (c.cappedBase cur) 2)) ∧
    (c.cappedBase cur < 2 → ∀ draw, c.nextDelay cur draw = none) := by
  constructor
  · intro h2
    have hpos : ¬ Int.tdiv (c.cappedBase cur) 2 ≤ 0 := by
      rw [tdiv_two_nonpos_iff]
      omega
    unfold Client.nextDelay randInt63n
    dsimp only
    rw [if_neg hpos, if_pos ⟨le_refl 0, by omega⟩]
    simp
  · intro hlt draw
    have hnp : Int.tdiv (c.cappedBase cur) 2 ≤ 0 := (tdiv_two_nonpos_iff _).mpr hlt
    unfold Client.nextDelay randInt63n
    dsimp only
    rw [if_pos hnp]
    rfl

/-- Witness for C9: the default configuration succeeds at `current = 0`, while an `initialDelay` of 1 ns panics at `current = 0`. -/
theorem C9_witness :
    (NewClient "http://localhost:8080").nextDelay 0 0 = some 250000000 ∧
    ({ NewClient "http://localhost:8080" with initialDelay := 1 } : Client).nextDelay 0 7 = none := by
  constructor
  · have h := (C9_nextDelay_panic_boundary (NewClient "http://localhost:8080") 0).1 (by decide)
    simpa using h
  · exact (C9_nextDelay_panic_boundary
      ({ NewClient "http://localhost:8080" with initialDelay := 1 } : Client) 0).2 (by decide) 7

/-- C10: a 200 response with a decodable body yields exactly the decoded `result` string, and any such string other than `pending` — including the empty string — is adopted as `status`, treated as terminal (`pending := false`) and returned to the caller with 200, not classified as a transport failure. -/
theorem C10_adopts_any_result_string (c : Client) (now draw : Int) (st : String)
    (hp : c.pending = true) (he : ¬ now < c.nextRequest) (hst : st ≠ "pending") :
    RetrieveStatus (some ⟨200, some st⟩) = .ok st ∧
    c.handlePoll now (.ok st) draw =
      some ⟨{ c with attempt := c.attempt + 1, status := st, pending := false, lastRequest := now }, .ok st, true⟩ ∧
    ({ c with attempt := c.attempt + 1, status := st, pending := false, lastRequest := now } : Client).status = st ∧
    ({ c with attempt := c.attempt + 1, status := st, pending := false, lastRequest := now } : Client).pending = false := by
  refine ⟨rfl, ?_, rfl, rfl⟩
  simp [Client.handlePoll, hp, he, hst]

/-- Witness for C10 at the empty result string. -/
theorem C10_witness :
    RetrieveStatus (some ⟨200, some ""⟩) = .ok "" ∧
    ((NewClient "u").startSequence 0).handlePoll 0 (.ok "") 0 =
      some ⟨{ (NewClient "u").startSequence 0 with attempt := 1, status := "", pending := false, lastRequest := 0 }, .ok "", true⟩ := by
  have h := C10_adopts_any_result_string ((NewClient "u").startSequence 0) 0 0 "" rfl (by decide) (by decide)
  exact ⟨h.1, h.2.1⟩
